import Mathlib

/-!
# Verification of the HD key-derivation core of sigma-rust

A shallow embedding of the hierarchical-deterministic (BIP32-style) secret-key
management core described by the repository specification: secret-key
representation and validation, derivation-path parsing, and child-key
derivation (CKD), together with the Swift `DerivationPath` binding initializer
and the wasm `set_exports` packaging script.

Bytes are modelled as `Nat` values (< 256 by construction of every producer),
byte strings as `List Nat`, scalars as `Nat` with explicit `% n` arithmetic.
-/

/-! ## Byte encodings -/

/-- Fixed-width big-endian encoding of a natural number into `w` bytes
(the secret-key and index serializations of the spec, section 6). -/
def toBytesBE : Nat → Nat → List Nat
  | 0, _ => []
  | w + 1, k => toBytesBE w (k / 256) ++ [k % 256]

/-- Big-endian interpretation of a byte string as a natural number. -/
def bytesToNat (bs : List Nat) : Nat := bs.foldl (fun a b => a * 256 + b) 0

/-- 4-byte big-endian serialization of a 32-bit index (ser32 of BIP32). -/
def ser32 (i : Nat) : List Nat := toBytesBE 4 i

/-! ## SHA-512 (FIPS 180-4), executable model

`Modelled from the spec:` the repository core (not under the binding sources)
computes `I = HMAC-SHA512(key, data)` for master-key generation and for each
CKD step; SHA-512 and HMAC are embedded here in full so the model is
executable.  64-bit words are `Nat` reduced `% 2 ^ 64`. -/

def w64 (x : Nat) : Nat := x % 2 ^ 64

/-- 64-bit right rotation. -/
def rotr64 (n x : Nat) : Nat := w64 (x >>> n ||| x <<< (64 - n))

/-- 64-bit bitwise complement. -/
def bnot64 (x : Nat) : Nat := x ^^^ (2 ^ 64 - 1)

/-- SHA-512 round constants: first 64 bits of the fractional parts of the cube
roots of the first 80 primes. -/
def sha512K : List Nat := [
  4794697086780616226, 8158064640168781261, 13096744586834688815,
  16840607885511220156, 4131703408338449720, 6480981068601479193,
  10538285296894168987, 12329834152419229976, 15566598209576043074,
  1334009975649890238, 2608012711638119052, 6128411473006802146,
  8268148722764581231, 9286055187155687089, 11230858885718282805,
  13951009754708518548, 16472876342353939154, 17275323862435702243,
  1135362057144423861, 2597628984639134821, 3308224258029322869,
  5365058923640841347, 6679025012923562964, 8573033837759648693,
  10970295158949994411, 12119686244451234320, 12683024718118986047,
  13788192230050041572, 14330467153632333762, 15395433587784984357,
  489312712824947311, 1452737877330783856, 2861767655752347644,
  3322285676063803686, 5560940570517711597, 5996557281743188959,
  7280758554555802590, 8532644243296465576, 9350256976987008742,
  10552545826968843579, 11727347734174303076, 12113106623233404929,
  14000437183269869457, 14369950271660146224, 15101387698204529176,
  15463397548674623760, 17586052441742319658, 1182934255886127544,
  1847814050463011016, 2177327727835720531, 2830643537854262169,
  3796741975233480872, 4115178125766777443, 5681478168544905931,
  6601373596472566643, 7507060721942968483, 8399075790359081724,
  8693463985226723168, 9568029438360202098, 10144078919501101548,
  10430055236837252648, 11840083180663258601, 13761210420658862357,
  14299343276471374635, 14566680578165727644, 15097957966210449927,
  16922976911328602910, 17689382322260857208, 500013540394364858,
  748580250866718886, 1242879168328830382, 1977374033974150939,
  2944078676154940804, 3659926193048069267, 4368137639120453308,
  4836135668995329356, 5532061633213252278, 6448918945643986474,
  6902733635092675308, 7801388544844847127]

/-- SHA-512 initial hash value: first 64 bits of the fractional parts of the
square roots of the first 8 primes. -/
def sha512H0 : List Nat := [
  7640891576956012808, 13503953896175478587, 4354685564936845355,
  11912009170470909681, 5840696475078001361, 11170449401992604703,
  2270897969802886507, 6620516959819538809]

/-- The eight 64-bit working variables of the SHA-512 compression function. -/
structure SHAState where
  a : Nat
  b : Nat
  c : Nat
  d : Nat
  e : Nat
  f : Nat
  g : Nat
  h : Nat

/-- Big-Sigma-0. -/
def bsig0 (x : Nat) : Nat := rotr64 28 x ^^^ rotr64 34 x ^^^ rotr64 39 x

/-- Big-Sigma-1. -/
def bsig1 (x : Nat) : Nat := rotr64 14 x ^^^ rotr64 18 x ^^^ rotr64 41 x

/-- small-sigma-0. -/
def ssig0 (x : Nat) : Nat := rotr64 1 x ^^^ rotr64 8 x ^^^ x >>> 7

/-- small-sigma-1. -/
def ssig1 (x : Nat) : Nat := rotr64 19 x ^^^ rotr64 61 x ^^^ x >>> 6

/-- Ch function of the compression round. -/
def shaCh (e f g : Nat) : Nat := e &&& f ^^^ bnot64 e &&& g

/-- Maj function of the compression round. -/
def shaMaj (a b c : Nat) : Nat := a &&& b ^^^ a &&& c ^^^ b &&& c

/-- Message schedule: expand a 16-word block to 80 words. -/
def sha512Schedule (block : List Nat) : List Nat :=
  (List.range 64).foldl
    (fun W _ =>
      let l := W.length
      W ++ [w64 (ssig1 (W.getD (l - 2) 0) + W.getD (l - 7) 0 +
                 ssig0 (W.getD (l - 15) 0) + W.getD (l - 16) 0)])
    block

/-- One compression round. -/
def sha512Round (st : SHAState) (kt wt : Nat) : SHAState :=
  let t1 := w64 (st.h + bsig1 st.e + shaCh st.e st.f st.g + kt + wt)
  let t2 := w64 (bsig0 st.a + shaMaj st.a st.b st.c)
  ⟨w64 (t1 + t2), st.a, st.b, st.c, w64 (st.d + t1), st.e, st.f, st.g⟩

/-- Process one 16-word block, updating the 8-word hash value. -/
def sha512Compress (H : List Nat) (block : List Nat) : List Nat :=
  let W := sha512Schedule block
  let st0 : SHAState :=
    ⟨H.getD 0 0, H.getD 1 0, H.getD 2 0, H.getD 3 0,
     H.getD 4 0, H.getD 5 0, H.getD 6 0, H.getD 7 0⟩
  let st := (List.range 80).foldl
    (fun st t => sha512Round st (sha512K.getD t 0) (W.getD t 0)) st0
  [w64 (H.getD 0 0 + st.a), w64 (H.getD 1 0 + st.b), w64 (H.getD 2 0 + st.c),
   w64 (H.getD 3 0 + st.d), w64 (H.getD 4 0 + st.e), w64 (H.getD 5 0 + st.f),
   w64 (H.getD 6 0 + st.g), w64 (H.getD 7 0 + st.h)]

/-- SHA-512 padding: append 0x80, zero bytes, and the 128-bit big-endian bit
length, reaching a multiple of 128 bytes. -/
def sha512Pad (msg : List Nat) : List Nat :=
  msg ++ [0x80] ++ List.replicate ((128 - (msg.length + 17) % 128) % 128) 0 ++
    toBytesBE 16 (8 * msg.length)

/-- Group a padded byte string into 64-bit big-endian words. -/
def bytesToWords : List Nat → List Nat
  | b0 :: b1 :: b2 :: b3 :: b4 :: b5 :: b6 :: b7 :: rest =>
    bytesToNat [b0, b1, b2, b3, b4, b5, b6, b7] :: bytesToWords rest
  | _ => []

/-- Group a word string into 16-word blocks. -/
def wordsToBlocks : List Nat → List (List Nat)
  | w0 :: w1 :: w2 :: w3 :: w4 :: w5 :: w6 :: w7 ::
    w8 :: w9 :: w10 :: w11 :: w12 :: w13 :: w14 :: w15 :: rest =>
    [w0, w1, w2, w3, w4, w5, w6, w7, w8, w9, w10, w11, w12, w13, w14, w15] ::
      wordsToBlocks rest
  | _ => []

/-- SHA-512 of a byte string, as a 64-byte string. -/
def sha512 (msg : List Nat) : List Nat :=
  let blocks := wordsToBlocks (bytesToWords (sha512Pad msg))
  (blocks.foldl sha512Compress sha512H0).flatMap (toBytesBE 8)

/-- HMAC-SHA512 (RFC 2104) with block size 128 bytes. -/
def hmacSHA512 (key msg : List Nat) : List Nat :=
  let k0 := if key.length > 128 then sha512 key else key
  let k := k0 ++ List.replicate (128 - k0.length) 0
  sha512 (k.map (fun b => b ^^^ 0x5c) ++
          sha512 (k.map (fun b => b ^^^ 0x36) ++ msg))

/-! ## secp256k1, scalars and points

`Modelled from the spec:` the curve of the core ("a specific elliptic curve",
sections 1 and 4.2; sigma-rust uses secp256k1) with its group order `n`
(glossary: valid private scalars lie in `[1, n-1]`), base-point scalar
multiplication for `public_key()`, and SEC1 compressed point serialization
used as "the parent's serialized public key point" in non-hardened CKD. -/

/-- The secp256k1 field prime. -/
def secpP : Nat := 2 ^ 256 - 2 ^ 32 - 977

/-- The secp256k1 group order `n`. -/
def secpN : Nat := 0xFFFFFFFFFFFFFFFFFFFFFFFFFFFFFFFEBAAEDCE6AF48A03BBFD25E8CD0364141

/-- x-coordinate of the secp256k1 base point. -/
def secpGx : Nat := 0x79BE667EF9DCBBAC55A06295CE870B07029BFCDB2DCE28D959F2815B16F81798

/-- y-coordinate of the secp256k1 base point. -/
def secpGy : Nat := 0x483ADA7726A3C4655DA4FBFC0E1108A8FD17B448A68554199C47D08FFB10D4B8

/-- Modular exponentiation by repeated squaring. -/
def powMod (b e m : Nat) : Nat :=
  if h : e = 0 then 1 % m
  else
    let r := powMod (b * b % m) (e / 2) m
    if e % 2 = 1 then b % m * r % m else r
termination_by e
decreasing_by exact Nat.div_lt_self (Nat.pos_of_ne_zero h) one_lt_two

/-- Modular inverse in the secp256k1 field, via Fermat's little theorem. -/
def fieldInv (a : Nat) : Nat := powMod a (secpP - 2) secpP

/-- An affine curve point; `none` is the point at infinity. -/
def ECPoint : Type := Option (Nat × Nat)

/-- Curve point addition on secp256k1 (affine formulas). -/
def ecAdd (P Q : ECPoint) : ECPoint :=
  match P, Q with
  | none, q => q
  | p, none => p
  | some (x1, y1), some (x2, y2) =>
    if x1 % secpP = x2 % secpP then
      if (y1 + y2) % secpP = 0 then none
      else
        let lam := 3 * x1 * x1 % secpP * fieldInv (2 * y1 % secpP) % secpP
        let x3 := (lam * lam + 2 * secpP * secpP - x1 - x2) % secpP
        some (x3, (lam * (x1 + secpP - x3) + secpP * secpP - y1) % secpP)
    else
      let lam := (y2 + secpP - y1) % secpP * fieldInv ((x2 + secpP - x1) % secpP) % secpP
      let x3 := (lam * lam + 2 * secpP - x1 - x2) % secpP
      some (x3, (lam * (x1 + secpP - x3) + secpP * secpP - y1) % secpP)

/-- Scalar multiplication by double-and-add. -/
def ecMul (k : Nat) (P : ECPoint) : ECPoint :=
  if h : k = 0 then none
  else
    let r := ecMul (k / 2) (ecAdd P P)
    if k % 2 = 1 then ecAdd P r else r
termination_by k
decreasing_by exact Nat.div_lt_self (Nat.pos_of_ne_zero h) one_lt_two

/-- Model of `public_key()` of the spec (section 4.2): scalar multiplication of the
curve base point by the secret scalar. -/
def publicKeyPoint (k : Nat) : ECPoint := ecMul k (some (secpGx, secpGy))

/-- SEC1 compressed serialization of a point: `0x02`/`0x03` prefix by y
parity, then the 32-byte big-endian x-coordinate (infinity: a zero byte). -/
def serPoint (P : ECPoint) : List Nat :=
  match P with
  | none => [0]
  | some (x, y) => (if y % 2 = 0 then 0x02 else 0x03) :: toBytesBE 32 x

/-! ## SecretKey (spec section 4.2) -/

/-- The error kinds of the core (spec section 7). -/
inductive KeyError where
  | InvalidLength
  | ScalarOutOfRange
  | InvalidSeedLength
  | DerivationFailure
deriving DecidableEq, Repr

/-- Modelled from the spec: `SecretKey.from_bytes` (section 4.2), absent
from the binding sources: fails with `InvalidLength` if the buffer is not
exactly 32 bytes, with `ScalarOutOfRange` if the big-endian value is zero or
at least the curve order `n`. -/
def secretKeyFromBytes (bs : List Nat) : Except KeyError Nat :=
  if bs.length ≠ 32 then .error .InvalidLength
  else
    let k := bytesToNat bs
    if k = 0 ∨ secpN ≤ k then .error .ScalarOutOfRange
    else .ok k

/-- Model of `SecretKey.to_bytes` (spec section 4.2): fixed-width 32-byte big-endian
encoding. -/
def secretKeyToBytes (k : Nat) : List Nat := toBytesBE 32 k

/-! ## Derivation paths (spec sections 3, 4.1, 6)

Strings are modelled as lists of character codes (`List Nat`): `47` is the
separator `/`, `109` the root letter `m`, `39` the hardened mark, `48`-`57`
the digits. -/

/-- One path segment: a 31-bit index magnitude and a hardened flag. -/
structure PathSegment where
  index : Nat
  hardened : Bool
deriving DecidableEq, Repr

/-- Reasons of a path-parse failure (spec section 4.1). -/
inductive ParseReason where
  | notRoot
  | emptySegment
  | nonNumeric
  | indexTooLarge
deriving DecidableEq, Repr

/-- Model of `ParseError{segment_index, reason}` of the spec (section 4.1). -/
structure PathParseError where
  segmentIndex : Nat
  reason : ParseReason
deriving DecidableEq, Repr

/-- Split a code list on a separator code; always returns at least one part,
and no part contains the separator. -/
def splitOnCode (c : Nat) : List Nat → List (List Nat)
  | [] => [[]]
  | x :: xs =>
    match splitOnCode c xs with
    | [] => [[]]
    | p :: ps => if x = c then [] :: p :: ps else (x :: p) :: ps

/-- Whether a character code is a decimal digit. -/
def isDigitCode (c : Nat) : Bool := 48 ≤ c && c ≤ 57

/-- Decimal value of a digit string (big-endian). -/
def digitsVal (cs : List Nat) : Nat := cs.foldl (fun a c => a * 10 + (c - 48)) 0

/-- Parse the digit part of a segment: rejects an empty or non-numeric
digit string and an index of 2^31 or more. -/
def parseIndex (digits : List Nat) (hardened : Bool) :
    Except ParseReason PathSegment :=
  if digits = [] then .error .nonNumeric
  else if digits.all isDigitCode then
    if digitsVal digits < 2 ^ 31 then .ok ⟨digitsVal digits, hardened⟩
    else .error .indexTooLarge
  else .error .nonNumeric

/-- Modelled from the spec: parsing of one path segment (section 4.1):
digits optionally followed by a hardened mark; rejects an empty segment, a
non-numeric segment, and an index of 2^31 or more. -/
def parseSegment (part : List Nat) : Except ParseReason PathSegment :=
  if part = [] then .error .emptySegment
  else if part.getLast? = some 39 then parseIndex part.dropLast true
  else parseIndex part false

/-- Parse the segments after the root, numbering them from 1 for the
`segment_index` of a `ParseError`. -/
def parseSegments : List (List Nat) → Nat → Except PathParseError (List PathSegment)
  | [], _ => .ok []
  | part :: ps, i =>
    match parseSegment part with
    | .error r => .error ⟨i, r⟩
    | .ok s =>
      match parseSegments ps (i + 1) with
      | .error e => .error e
      | .ok rest => .ok (s :: rest)

/-- Modelled from the spec: `DerivationPath.parse` (section 4.1), absent
from the binding sources: splits on `/`, requires the first segment to equal
`m`, then parses each segment. -/
def parsePath (cs : List Nat) : Except PathParseError (List PathSegment) :=
  let parts := splitOnCode 47 cs
  if parts.head? = some [109] then parseSegments parts.tail 1
  else .error ⟨0, .notRoot⟩

/-- Big-endian decimal digit codes of a positive number, with enough fuel;
`numStrCore fuel 0 = []`. -/
def numStrCore : Nat → Nat → List Nat
  | _, 0 => []
  | 0, _ => []
  | fuel + 1, n => numStrCore fuel (n / 10) ++ [n % 10 + 48]

/-- Decimal digit string of an index (no leading zeros; `0` is `"0"`). -/
def numStr (i : Nat) : List Nat :=
  if i = 0 then [48] else numStrCore i i

/-- Canonical string of one segment: digits then the optional hardened mark. -/
def segStr (s : PathSegment) : List Nat :=
  numStr s.index ++ if s.hardened then [39] else []

/-- Model of `DerivationPath.to_string` (spec section 4.1): the canonical form
`m/i1/i2'/...`. -/
def pathToString (p : List PathSegment) : List Nat :=
  109 :: (p.flatMap fun s => 47 :: segStr s)

/-! ## ExtSecretKey and child key derivation (spec sections 4.3, 4.4) -/

/-- An extended secret key: secret scalar, 32-byte chain code, depth. -/
structure ExtSecretKey where
  secretKey : Nat
  chainCode : List Nat
  depth : Nat
deriving DecidableEq, Repr

/-- HMAC input of one CKD step (spec section 4.3, step 2): hardened mode
takes a zero byte, the 32-byte parent secret key and the 4-byte big-endian
offset index; non-hardened mode takes the serialized parent public point and
the 4-byte big-endian index. -/
def ckdInput (parent : ExtSecretKey) (seg : PathSegment) : List Nat :=
  if seg.hardened then
    0 :: secretKeyToBytes parent.secretKey ++ ser32 (seg.index + 2 ^ 31)
  else
    serPoint (publicKeyPoint parent.secretKey) ++ ser32 seg.index

/-- Modelled from the spec: one CKD step (section 4.3), absent from the
binding sources: `I = HMAC-SHA512(key = c_par, data = input)`, child scalar
`(IL + k_par) mod n` and chain code `IR`; fails with `DerivationFailure` when
`IL ≥ n` or the child scalar is zero. -/
def deriveChild (parent : ExtSecretKey) (seg : PathSegment) :
    Except KeyError ExtSecretKey :=
  let I := hmacSHA512 parent.chainCode (ckdInput parent seg)
  let IL := bytesToNat (I.take 32)
  let IR := I.drop 32
  if secpN ≤ IL then .error .DerivationFailure
  else
    let kChild := (IL + parent.secretKey) % secpN
    if kChild = 0 then .error .DerivationFailure
    else .ok ⟨kChild, IR, parent.depth + 1⟩

/-- Modelled from the spec: `ExtSecretKey.derive` (section 4.4), absent
from the binding sources: applies the CKD step sequentially, segment by
segment, stopping at the first failure. -/
def derivePath (k : ExtSecretKey) : List PathSegment → Except KeyError ExtSecretKey
  | [] => .ok k
  | s :: rest =>
    match deriveChild k s with
    | .error e => .error e
    | .ok child => derivePath child rest

/-- Modelled from the spec: the minimum seed length of
`ExtSecretKey.new` (sections 4.4 and 8).  The spec fixes no exact value but
requires it to exceed 30 bytes (the 30-byte scenario must fail); the
64-byte BIP32-style master seed length is used. -/
def minSeedLength : Nat := 64

/-- Modelled from the spec: the fixed domain-separation constant used as
the HMAC key for master-key generation (sections 4.4 and 9); the spec fixes
no value, the BIP32 constant (the ASCII bytes of "Bitcoin seed") is used. -/
def masterHmacKey : List Nat :=
  [66, 105, 116, 99, 111, 105, 110, 32, 115, 101, 101, 100]

/-- Modelled from the spec: `ExtSecretKey.new` from a seed (section 4.4),
absent from the binding sources: rejects a seed shorter than the minimum
with `InvalidSeedLength`, computes `I = HMAC-SHA512` over the seed with the
fixed key, takes the first 32 bytes as the master secret key (which must be
in range) and the last 32 as the chain code, at depth 0. -/
def extSecretKeyFromSeed (seed : List Nat) : Except KeyError ExtSecretKey :=
  if seed.length < minSeedLength then .error .InvalidSeedLength
  else
    let I := hmacSHA512 masterHmacKey seed
    let k := bytesToNat (I.take 32)
    if k = 0 ∨ secpN ≤ k then .error .ScalarOutOfRange
    else .ok ⟨k, I.drop 32, 0⟩

/-- Master-key generation followed by full-path derivation (the data flow of
spec section 2), ending in the resulting secret-key bytes. -/
def deriveFromSeed (seed : List Nat) (path : List PathSegment) :
    Except KeyError (List Nat) :=
  match extSecretKeyFromSeed seed with
  | .error e => .error e
  | .ok master =>
    match derivePath master path with
    | .error e => .error e
    | .ok k => .ok (secretKeyToBytes k.secretKey)

/-! ## The Swift `DerivationPath` binding initializer

Embedding of `bindings/ergo-lib-ios/Sources/ErgoLib/DerivationPath.swift`:
the initializer calls `ergo_lib_derivation_path_from_str`, which fills an
out-pointer and returns an error value; `checkError` throws exactly when the
error value is non-null; otherwise the initializer force-unwraps the pointer.
The native call itself is outside the sources: per the spec (section 6) each
entry point "returns either a valid handle or a typed error", modelled as the
hypothesis that a null error comes with a non-null out-pointer. -/

/-- Result of the native `ergo_lib_derivation_path_from_str` call: the
returned error value and the written out-pointer, each possibly null.
Pointers are abstracted as `Nat` handles. -/
structure NativeCallResult where
  error : Option KeyError
  ptr : Option Nat

/-- Outcome of the Swift initializer: a constructed object holding a
non-null handle, a thrown error, or a trap of the forced unwrap `ptr!`. -/
inductive SwiftInitOutcome where
  | ok (handle : Nat)
  | thrown (e : KeyError)
  | trap
deriving DecidableEq, Repr

/-- Model of `checkError` of the Swift binding: throws exactly when the native error
value is non-null. -/
def checkErrorThrows (r : NativeCallResult) : Bool := r.error.isSome

/-- The Swift `DerivationPath.init` control flow: `try checkError(error)`
then `self.pointer = ptr!`. -/
def derivationPathInit (r : NativeCallResult) : SwiftInitOutcome :=
  match r.error with
  | some e => .thrown e
  | none =>
    match r.ptr with
    | some p => .ok p
    | none => .trap

/-! ## The wasm `set_exports` packaging script

Embedding of `bindings/ergo-lib-wasm/scripts/set_exports.js`.  A JSON value
is a string, a nested object, or some other atom; an object is an ordered
association list of fields, as a JavaScript object is.  The script reads
`pkg-browser/package.json`, removes `module` by rest-destructuring, spreads
the rest and then assigns `type`, `main` and `exports`. -/

/-- A JSON value: enough structure for `package.json` fields. -/
inductive JVal where
  | str (s : String)
  | obj (fields : List (String × JVal))
  | atom (tag : Nat)

/-- First-match field lookup in a JavaScript object. -/
def jLookup (k : String) : List (String × JVal) → Option JVal
  | [] => none
  | (k2, v) :: rest => if k2 = k then some v else jLookup k rest

/-- Rest-destructuring `const \x7b module: unusedModule, ...rest \x7d`:
removes the `module` field. -/
def removeKey (k : String) (o : List (String × JVal)) : List (String × JVal) :=
  o.filter fun f => f.1 ≠ k

/-- JavaScript object-literal assignment of a key after a spread: updates the
value in place when the key exists, otherwise appends the field. -/
def setKey (k : String) (v : JVal) : List (String × JVal) → List (String × JVal)
  | [] => [(k, v)]
  | (k2, v2) :: rest =>
    if k2 = k then (k, v) :: rest else (k2, v2) :: setKey k v rest

/-- The `exports` value written by the script: `.` maps to the type
declarations and the same `ergo_lib_wasm.js` file for `import` and
`require`. -/
def exportsVal : JVal :=
  .obj [(".", .obj [("types", .str "./ergo_lib_wasm.d.ts"),
                    ("import", .str "./ergo_lib_wasm.js"),
                    ("require", .str "./ergo_lib_wasm.js")])]

/-- Model of `newPackageJson` of `set_exports.js`: the old object without `module`,
with `type`, `main` and `exports` assigned. -/
def newPackageJson (old : List (String × JVal)) : List (String × JVal) :=
  setKey "exports" exportsVal
    (setKey "main" (.str "./ergo_lib_wasm.js")
      (setKey "type" (.str "module")
        (removeKey "module" old)))

/-! ## Encoding lemmas -/

theorem toBytesBE_length (w k : Nat) : (toBytesBE w k).length = w := by
  induction w generalizing k with
  | zero => rfl
  | succ w ih => simp [toBytesBE, ih]

theorem foldl_toBytesBE (w k a : Nat) :
    (toBytesBE w k).foldl (fun a b => a * 256 + b) a = a * 256 ^ w + k % 256 ^ w := by
  induction w generalizing k a with
  | zero => simp [toBytesBE, Nat.mod_one]
  | succ w ih =>
    rw [show toBytesBE (w + 1) k = toBytesBE w (k / 256) ++ [k % 256] from rfl,
      List.foldl_append, ih]
    simp only [List.foldl_cons, List.foldl_nil]
    rw [Nat.pow_succ, Nat.mul_comm (256 ^ w) 256, Nat.mod_mul]
    ring

theorem bytesToNat_toBytesBE (w k : Nat) (h : k < 256 ^ w) :
    bytesToNat (toBytesBE w k) = k := by
  unfold bytesToNat
  rw [foldl_toBytesBE]
  simp [Nat.mod_eq_of_lt h]

theorem secpN_lt : secpN < 256 ^ 32 := by decide

/-- C6: for every valid secret key `k` with `0 < k < n`, `to_bytes k` is a
32-byte big-endian encoding (its big-endian value is `k`), and
`from_bytes (to_bytes k)` succeeds and returns `k` (round trip). -/
theorem secretKey_toBytes_fromBytes_roundtrip (k : Nat) (hpos : 0 < k)
    (hlt : k < secpN) :
    (secretKeyToBytes k).length = 32 ∧
      bytesToNat (secretKeyToBytes k) = k ∧
      secretKeyFromBytes (secretKeyToBytes k) = .ok k := by
  have hk : k < 256 ^ 32 := lt_trans hlt secpN_lt
  have hval : bytesToNat (secretKeyToBytes k) = k :=
    bytesToNat_toBytesBE 32 k hk
  refine ⟨toBytesBE_length 32 k, hval, ?_⟩
  unfold secretKeyFromBytes
  rw [if_neg (by simp [secretKeyToBytes, toBytesBE_length])]
  simp only [hval]
  rw [if_neg (by omega)]

/-- Witness for C6 at `k = 1`. -/
theorem secretKey_roundtrip_witness :
    (secretKeyToBytes 1).length = 32 ∧
      bytesToNat (secretKeyToBytes 1) = 1 ∧
      secretKeyFromBytes (secretKeyToBytes 1) = .ok 1 :=
  secretKey_toBytes_fromBytes_roundtrip 1 (by decide) (by decide)

/-- C3: `SecretKey.from_bytes` fails with `InvalidLength` exactly when the
buffer is not 32 bytes; on 32-byte buffers it fails with `ScalarOutOfRange`
exactly when the big-endian value is zero or at least `n`; the all-zero
32-byte buffer is rejected with `ScalarOutOfRange`, and every 30-byte buffer
is rejected with an error. -/
theorem secretKeyFromBytes_errors (bs : List Nat) :
    (secretKeyFromBytes bs = .error .InvalidLength ↔ bs.length ≠ 32) ∧
      (bs.length = 32 →
        (secretKeyFromBytes bs = .error .ScalarOutOfRange ↔
          bytesToNat bs = 0 ∨ secpN ≤ bytesToNat bs)) ∧
      secretKeyFromBytes (List.replicate 32 0) = .error .ScalarOutOfRange ∧
      (bs.length = 30 → secretKeyFromBytes bs = .error .InvalidLength) := by
  refine ⟨?_, ?_, ?_, ?_⟩
  · unfold secretKeyFromBytes
    by_cases h32 : bs.length = 32
    · rw [if_neg (by simp [h32])]
      by_cases hr : bytesToNat bs = 0 ∨ secpN ≤ bytesToNat bs
      · simp [hr, h32]
      · simp [hr, h32]
    · simp [h32]
  · intro h32
    unfold secretKeyFromBytes
    rw [if_neg (by simp [h32])]
    by_cases hr : bytesToNat bs = 0 ∨ secpN ≤ bytesToNat bs
    · simp [hr]
    · simp [hr]
  · have hz : bytesToNat (List.replicate 32 0) = 0 := by decide
    unfold secretKeyFromBytes
    rw [if_neg (by simp), if_pos (Or.inl hz)]
  · intro h30
    unfold secretKeyFromBytes
    rw [if_pos (by omega)]

/-- Witness for C3: the 30-byte all-zero buffer is rejected with
`InvalidLength`, the 32-byte all-zero buffer with `ScalarOutOfRange`, and on
the 32-byte encoding of 1, neither error fires. -/
theorem secretKeyFromBytes_errors_witness :
    secretKeyFromBytes (List.replicate 30 0) = .error .InvalidLength ∧
      secretKeyFromBytes (List.replicate 32 0) = .error .ScalarOutOfRange ∧
      ¬(secretKeyFromBytes (toBytesBE 32 1) = .error .ScalarOutOfRange) :=
  ⟨(secretKeyFromBytes_errors (List.replicate 30 0)).2.2.2 (by decide),
   (secretKeyFromBytes_errors (List.replicate 32 0)).2.2.1,
   fun h =>
     absurd (((secretKeyFromBytes_errors (toBytesBE 32 1)).2.1 (by decide)).mp h)
       (by decide)⟩

/-- C4: `ExtSecretKey` master-key construction fails with
`InvalidSeedLength` whenever the seed is shorter than the minimum accepted
length; in particular every 30-byte seed is rejected with
`InvalidSeedLength`. -/
theorem extSecretKeyFromSeed_shortSeed (seed : List Nat) :
    (seed.length < minSeedLength →
      extSecretKeyFromSeed seed = .error .InvalidSeedLength) ∧
      (seed.length = 30 →
        extSecretKeyFromSeed seed = .error .InvalidSeedLength) := by
  constructor
  · intro h
    unfold extSecretKeyFromSeed
    rw [if_pos h]
  · intro h
    unfold extSecretKeyFromSeed
    rw [if_pos (by rw [h]; decide)]

/-- Witness for C4 at the 30-byte all-zero seed. -/
theorem extSecretKeyFromSeed_shortSeed_witness :
    extSecretKeyFromSeed (List.replicate 30 0) = .error .InvalidSeedLength :=
  (extSecretKeyFromSeed_shortSeed (List.replicate 30 0)).2 (by decide)

/-- C1: one CKD step hashes, with HMAC-SHA512 keyed by the parent chain
code, the input made of a zero byte, the 32-byte parent secret key and the
4-byte big-endian index offset by `2 ^ 31` when hardened, or the serialized
parent public point and the 4-byte big-endian index when non-hardened; the
child secret scalar is `(IL + k_par) mod n` for `IL` the first 32 bytes of
the HMAC output, the child chain code is the last 32 bytes, and the step
fails with `DerivationFailure` when `IL ≥ n` or the child scalar is zero. -/
theorem deriveChild_ckd_spec (parent : ExtSecretKey) (i : Nat) (hardened : Bool) :
    deriveChild parent ⟨i, hardened⟩ =
      (fun I =>
        if secpN ≤ bytesToNat (I.take 32) then
          Except.error KeyError.DerivationFailure
        else if (bytesToNat (I.take 32) + parent.secretKey) % secpN = 0 then
          Except.error KeyError.DerivationFailure
        else
          Except.ok
            (ExtSecretKey.mk ((bytesToNat (I.take 32) + parent.secretKey) % secpN)
              (I.drop 32) (parent.depth + 1)))
        (hmacSHA512 parent.chainCode
          (if hardened then
            0 :: toBytesBE 32 parent.secretKey ++ toBytesBE 4 (i + 2 ^ 31)
          else
            serPoint (ecMul parent.secretKey (some (secpGx, secpGy))) ++
              toBytesBE 4 i)) := rfl

/-- C2: derivation is deterministic: equal seeds and paths give identical
resulting secret-key bytes through master-key generation followed by path
derivation, and at the single-step level equal parent key, chain code and
segment give identical child output. -/
theorem derivation_deterministic (s1 s2 : List Nat) (p1 p2 : List PathSegment)
    (k1 k2 : ExtSecretKey) (g1 g2 : PathSegment)
    (hs : s1 = s2) (hp : p1 = p2) (hk : k1 = k2) (hg : g1 = g2) :
    deriveFromSeed s1 p1 = deriveFromSeed s2 p2 ∧
      deriveChild k1 g1 = deriveChild k2 g2 := by
  subst hs hp hk hg
  exact ⟨rfl, rfl⟩

/-- Witness for C2 at a concrete seed, path, parent key and segment. -/
theorem derivation_deterministic_witness :
    deriveFromSeed (List.replicate 64 7) [⟨0, true⟩] =
        deriveFromSeed (List.replicate 64 7) [⟨0, true⟩] ∧
      deriveChild ⟨1, List.replicate 32 0, 0⟩ ⟨5, false⟩ =
        deriveChild ⟨1, List.replicate 32 0, 0⟩ ⟨5, false⟩ :=
  derivation_deterministic (List.replicate 64 7) (List.replicate 64 7)
    [⟨0, true⟩] [⟨0, true⟩] ⟨1, List.replicate 32 0, 0⟩ ⟨1, List.replicate 32 0, 0⟩
    ⟨5, false⟩ ⟨5, false⟩ rfl rfl rfl rfl

/-- C5: `derive` applies the CKD step sequentially, segment by segment: the
empty path returns the key unchanged, a nonempty path performs one step and
only on success continues with the remaining segments, a failing step's
error is returned as the result unchanged (no internal retry); consequently
derivation over a concatenated path is the sequential composition of the two
halves. -/
theorem derivePath_sequential :
    (∀ k : ExtSecretKey, derivePath k [] = .ok k) ∧
      (∀ (k : ExtSecretKey) (s : PathSegment) (rest : List PathSegment),
        derivePath k (s :: rest) =
          match deriveChild k s with
          | .error e => .error e
          | .ok child => derivePath child rest) ∧
      (∀ (k : ExtSecretKey) (p1 p2 : List PathSegment),
        derivePath k (p1 ++ p2) =
          match derivePath k p1 with
          | .error e => .error e
          | .ok mid => derivePath mid p2) := by
  refine ⟨fun _ => rfl, fun k s rest => ?_, fun k p1 p2 => ?_⟩
  · simp only [derivePath]
  · induction p1 generalizing k with
    | nil => simp only [List.nil_append, derivePath]
    | cons s rest ih =>
      rw [List.cons_append]
      simp only [derivePath]
      cases deriveChild k s with
      | error e => rfl
      | ok child => exact ih child

/-! ## Lemmas on JavaScript object operations -/

theorem jLookup_removeKey (k k2 : String) (o : List (String × JVal)) :
    jLookup k (removeKey k2 o) = if k = k2 then none else jLookup k o := by
  induction o with
  | nil => simp [removeKey, jLookup]
  | cons f rest ih =>
    obtain ⟨k3, v3⟩ := f
    simp only [removeKey, List.filter_cons] at ih ⊢
    by_cases h3 : k3 = k2
    · subst h3
      rw [if_neg (by simp)]
      rw [ih]
      by_cases hk : k = k3
      · simp [hk]
      · simp only [if_neg hk, jLookup]
        rw [if_neg (fun hh => hk hh.symm)]
    · rw [if_pos (by simp [h3])]
      simp only [jLookup]
      by_cases hk : k3 = k
      · rw [if_pos hk, if_neg (fun hh => h3 (hk.trans hh)), if_pos hk]
      · simp only [if_neg hk]
        exact ih

theorem jLookup_setKey_self (k : String) (v : JVal) (o : List (String × JVal)) :
    jLookup k (setKey k v o) = some v := by
  induction o with
  | nil => simp [setKey, jLookup]
  | cons f rest ih =>
    obtain ⟨k2, v2⟩ := f
    simp only [setKey]
    by_cases h2 : k2 = k
    · rw [if_pos h2]
      simp [jLookup]
    · rw [if_neg h2]
      simp only [jLookup, if_neg h2]
      exact ih

theorem jLookup_setKey_other (k k2 : String) (v : JVal)
    (o : List (String × JVal)) (h : k ≠ k2) :
    jLookup k (setKey k2 v o) = jLookup k o := by
  induction o with
  | nil =>
    simp only [setKey, jLookup]
    rw [if_neg (fun hh => h hh.symm)]
  | cons f rest ih =>
    obtain ⟨k3, v3⟩ := f
    simp only [setKey]
    by_cases h3 : k3 = k2
    · rw [if_pos h3]
      simp only [jLookup]
      rw [if_neg (fun hh => h hh.symm), if_neg (fun hh => h (hh.symm.trans h3))]
    · rw [if_neg h3]
      simp only [jLookup]
      by_cases hk : k3 = k
      · simp [hk]
      · simp only [if_neg hk]
        exact ih

/-- C10: the `package.json` written by `set_exports` holds every field of
the input unchanged, except that `module` is removed, `type` is set to
`"module"`, `main` to `"./ergo_lib_wasm.js"`, and `exports` maps `"."` to
the type declarations and the same `ergo_lib_wasm.js` file for both
`import` and `require`; no other field is added, removed or altered. -/
theorem newPackageJson_fields (old : List (String × JVal)) (k : String) :
    jLookup k (newPackageJson old) =
      if k = "type" then some (.str "module")
      else if k = "main" then some (.str "./ergo_lib_wasm.js")
      else if k = "exports" then
        some (.obj [(".", .obj [("types", .str "./ergo_lib_wasm.d.ts"),
                                ("import", .str "./ergo_lib_wasm.js"),
                                ("require", .str "./ergo_lib_wasm.js")])])
      else if k = "module" then none
      else jLookup k old := by
  unfold newPackageJson
  by_cases h1 : k = "exports"
  · subst h1
    rw [jLookup_setKey_self]
    simp [exportsVal]
  · rw [jLookup_setKey_other k "exports" _ _ h1]
    by_cases h2 : k = "main"
    · subst h2
      rw [jLookup_setKey_self]
      simp
    · rw [jLookup_setKey_other k "main" _ _ h2]
      by_cases h3 : k = "type"
      · subst h3
        rw [jLookup_setKey_self]
        simp
      · rw [jLookup_setKey_other k "type" _ _ h3, jLookup_removeKey]
        simp [h1, h2, h3]

/-- C9: the Swift `DerivationPath` initializer throws exactly when the
native `ergo_lib_derivation_path_from_str` call reports an error, and under
the native contract (no error implies a written out-pointer, spec section 6)
the forced unwrap `ptr!` never traps and a constructed object holds the
non-null handle. -/
theorem derivationPathInit_safe (r : NativeCallResult)
    (hcontract : r.error = none → r.ptr.isSome) :
    ((∃ e, derivationPathInit r = .thrown e) ↔ checkErrorThrows r = true) ∧
      derivationPathInit r ≠ .trap ∧
      (checkErrorThrows r = false →
        ∃ p, derivationPathInit r = .ok p ∧ r.ptr = some p) := by
  cases herr : r.error with
  | some e =>
    refine ⟨⟨fun _ => ?_, fun _ => ⟨e, ?_⟩⟩, ?_, fun hf => ?_⟩
    · simp [checkErrorThrows, herr]
    · simp [derivationPathInit, herr]
    · simp [derivationPathInit, herr]
    · simp [checkErrorThrows, herr] at hf
  | none =>
    have hp : r.ptr.isSome := hcontract herr
    obtain ⟨p, hpv⟩ := Option.isSome_iff_exists.mp hp
    refine ⟨⟨fun ⟨e, he⟩ => ?_, fun ht => ?_⟩, ?_, fun _ => ⟨p, ?_, hpv⟩⟩
    · simp [derivationPathInit, herr, hpv] at he
    · simp [checkErrorThrows, herr] at ht
    · simp [derivationPathInit, herr, hpv]
    · simp [derivationPathInit, herr, hpv]

/-- Witness for C9 at a successful native call with handle 1 and at a
failing native call. -/
theorem derivationPathInit_safe_witness :
    (derivationPathInit ⟨none, some 1⟩ ≠ .trap ∧
        ∃ p, derivationPathInit ⟨none, some 1⟩ = .ok p ∧
          (some 1 : Option Nat) = some p) ∧
      ∃ e, derivationPathInit ⟨some .InvalidLength, none⟩ = .thrown e :=
  ⟨⟨(derivationPathInit_safe ⟨none, some 1⟩ (fun _ => rfl)).2.1,
    (derivationPathInit_safe ⟨none, some 1⟩ (fun _ => rfl)).2.2 rfl⟩,
   ((derivationPathInit_safe ⟨some .InvalidLength, none⟩ (by simp)).1).mpr rfl⟩

/-! ## Path-parsing lemmas -/

theorem numStrCore_zero (fuel : Nat) : numStrCore fuel 0 = [] := by
  cases fuel <;> rfl

theorem mem_numStrCore (fuel n x : Nat) (hx : x ∈ numStrCore fuel n) :
    48 ≤ x ∧ x ≤ 57 := by
  induction fuel generalizing n with
  | zero =>
    cases n with
    | zero => simp [numStrCore] at hx
    | succ m => simp [numStrCore] at hx
  | succ fuel ih =>
    cases n with
    | zero => simp [numStrCore] at hx
    | succ m =>
      rw [show numStrCore (fuel + 1) (m + 1) =
        numStrCore fuel ((m + 1) / 10) ++ [(m + 1) % 10 + 48] from rfl] at hx
      rcases List.mem_append.mp hx with h | h
      · exact ih _ h
      · have hm : (m + 1) % 10 < 10 := Nat.mod_lt _ (by norm_num)
        simp only [List.mem_singleton] at h
        omega

theorem foldl_numStrCore (fuel : Nat) :
    ∀ n a, n ≤ fuel →
      (numStrCore fuel n).foldl (fun a c => a * 10 + (c - 48)) a =
        a * 10 ^ (numStrCore fuel n).length + n := by
  induction fuel with
  | zero =>
    intro n a hn
    interval_cases n
    simp [numStrCore]
  | succ fuel ih =>
    intro n a hn
    cases n with
    | zero => simp [numStrCore_zero]
    | succ m =>
      rw [show numStrCore (fuel + 1) (m + 1) =
        numStrCore fuel ((m + 1) / 10) ++ [(m + 1) % 10 + 48] from rfl]
      rw [List.foldl_append]
      simp only [List.foldl_cons, List.foldl_nil]
      have hd : (m + 1) / 10 ≤ fuel := by
        have := Nat.div_lt_self (Nat.succ_pos m) (by norm_num : 1 < 10)
        omega
      rw [ih ((m + 1) / 10) a hd]
      rw [List.length_append, List.length_singleton, pow_succ]
      have hmod : (m + 1) % 10 + 48 - 48 = (m + 1) % 10 := by omega
      rw [hmod]
      have := Nat.div_add_mod (m + 1) 10
      ring_nf
      omega

theorem digitsVal_numStr (i : Nat) : digitsVal (numStr i) = i := by
  unfold numStr digitsVal
  by_cases h : i = 0
  · simp [h]
  · rw [if_neg h, foldl_numStrCore i i 0 le_rfl]
    simp

theorem numStr_ne_nil (i : Nat) : numStr i ≠ [] := by
  unfold numStr
  by_cases h : i = 0
  · simp [h]
  · rw [if_neg h]
    cases i with
    | zero => exact absurd rfl h
    | succ m =>
      rw [show numStrCore (m + 1) (m + 1) =
        numStrCore m ((m + 1) / 10) ++ [(m + 1) % 10 + 48] from rfl]
      simp

theorem mem_numStr (i x : Nat) (hx : x ∈ numStr i) : 48 ≤ x ∧ x ≤ 57 := by
  unfold numStr at hx
  by_cases h : i = 0
  · rw [if_pos h] at hx
    simp only [List.mem_singleton] at hx
    omega
  · rw [if_neg h] at hx
    exact mem_numStrCore i i x hx

theorem numStr_all_digits (i : Nat) : (numStr i).all isDigitCode = true := by
  rw [List.all_eq_true]
  intro x hx
  have := mem_numStr i x hx
  simp only [isDigitCode, Bool.and_eq_true, decide_eq_true_eq]
  omega

theorem splitOnCode_ne_nil (c : Nat) (l : List Nat) : splitOnCode c l ≠ [] := by
  induction l with
  | nil => simp [splitOnCode]
  | cons x xs ih =>
    simp only [splitOnCode]
    cases h : splitOnCode c xs with
    | nil => simp
    | cons p ps => by_cases hx : x = c <;> simp [hx]

theorem splitOnCode_no_sep (c : Nat) (s : List Nat) (h : c ∉ s) :
    splitOnCode c s = [s] := by
  induction s with
  | nil => rfl
  | cons x xs ih =>
    have hx : x ≠ c := fun hh => h (hh ▸ List.mem_cons_self x xs)
    have hxs : c ∉ xs := fun hh => h (List.mem_cons_of_mem x hh)
    simp only [splitOnCode, ih hxs]
    rw [if_neg hx]

theorem splitOnCode_append_sep (c : Nat) (s t : List Nat) (h : c ∉ s) :
    splitOnCode c (s ++ c :: t) = s :: splitOnCode c t := by
  induction s with
  | nil =>
    simp only [List.nil_append, splitOnCode]
    cases hs : splitOnCode c t with
    | nil => exact absurd hs (splitOnCode_ne_nil c t)
    | cons p ps => simp
  | cons x xs ih =>
    have hx : x ≠ c := fun hh => h (hh ▸ List.mem_cons_self x xs)
    have hxs : c ∉ xs := fun hh => h (List.mem_cons_of_mem x hh)
    simp only [List.cons_append, splitOnCode, List.append_eq]
    rw [ih hxs]
    simp [hx]

theorem splitOnCode_flatten (c : Nat) (parts : List (List Nat)) :
    ∀ s0 : List Nat, c ∉ s0 → (∀ p ∈ parts, c ∉ p) →
      splitOnCode c (s0 ++ parts.flatMap fun p => c :: p) = s0 :: parts := by
  induction parts with
  | nil =>
    intro s0 h0 _
    simp only [List.flatMap_nil, List.append_nil]
    exact splitOnCode_no_sep c s0 h0
  | cons p ps ih =>
    intro s0 h0 hps
    rw [List.flatMap_cons, show (c :: p) ++ ps.flatMap (fun p => c :: p) =
      c :: (p ++ ps.flatMap fun p => c :: p) from rfl]
    rw [splitOnCode_append_sep c s0 _ h0]
    rw [ih p (hps p (List.mem_cons_self p ps))
      (fun q hq => hps q (List.mem_cons_of_mem p hq))]

theorem sep_not_mem_segStr (s : PathSegment) : 47 ∉ segStr s := by
  intro h
  unfold segStr at h
  rcases List.mem_append.mp h with h | h
  · have := mem_numStr s.index 47 h
    omega
  · cases hs : s.hardened <;> rw [hs] at h <;> simp at h

theorem getLast?_numStr_ne (i : Nat) : (numStr i).getLast? ≠ some 39 := by
  intro h
  have h39 : (39 : Nat) ∈ (numStr i).getLast? := by
    rw [Option.mem_def]
    exact h
  have heq := List.dropLast_append_getLast? 39 h39
  have hm : 39 ∈ numStr i := by
    rw [← heq]
    exact List.mem_append_right _ (by simp)
  have := mem_numStr i 39 hm
  omega

theorem parseIndex_numStr (i : Nat) (hardened : Bool) (hi : i < 2 ^ 31) :
    parseIndex (numStr i) hardened = .ok ⟨i, hardened⟩ := by
  unfold parseIndex
  rw [if_neg (by simpa using numStr_ne_nil i)]
  rw [if_pos (numStr_all_digits i)]
  rw [digitsVal_numStr]
  rw [if_pos hi]

theorem parseSegment_segStr (s : PathSegment) (hi : s.index < 2 ^ 31) :
    parseSegment (segStr s) = .ok s := by
  unfold parseSegment
  cases hh : s.hardened with
  | false =>
    have hseg : segStr s = numStr s.index := by simp [segStr, hh]
    rw [hseg]
    rw [if_neg (by simpa using numStr_ne_nil s.index)]
    rw [if_neg (getLast?_numStr_ne s.index)]
    rw [parseIndex_numStr s.index false hi]
    rw [show (⟨s.index, false⟩ : PathSegment) = s from by cases s; simp_all]
  | true =>
    have hseg : segStr s = numStr s.index ++ [39] := by simp [segStr, hh]
    rw [hseg]
    rw [if_neg (by simp)]
    rw [if_pos (List.getLast?_concat _)]
    rw [List.dropLast_concat]
    rw [parseIndex_numStr s.index true hi]
    rw [show (⟨s.index, true⟩ : PathSegment) = s from by cases s; simp_all]

theorem flatMap_sep (p : List PathSegment) :
    (p.flatMap fun s => 47 :: segStr s) =
      (p.map segStr).flatMap fun q => 47 :: q := by
  induction p with
  | nil => rfl
  | cons s rest ih => simp only [List.flatMap_cons, List.map_cons, ih]

theorem parseSegments_segStr (p : List PathSegment)
    (hi : ∀ s ∈ p, s.index < 2 ^ 31) :
    ∀ i, parseSegments (p.map segStr) i = .ok p := by
  induction p with
  | nil => intro i; rfl
  | cons s rest ih =>
    intro i
    simp only [List.map_cons, parseSegments]
    rw [parseSegment_segStr s (hi s (List.mem_cons_self s rest))]
    rw [ih (fun q hq => hi q (List.mem_cons_of_mem s hq)) (i + 1)]

theorem parsePath_pathToString (p : List PathSegment)
    (hi : ∀ s ∈ p, s.index < 2 ^ 31) :
    parsePath (pathToString p) = .ok p := by
  have hshape : pathToString p =
      [109] ++ ((p.map segStr).flatMap fun q => 47 :: q) := by
    simp [pathToString, flatMap_sep]
  have hmem : ∀ q ∈ p.map segStr, 47 ∉ q := by
    intro q hq
    obtain ⟨s, _, rfl⟩ := List.mem_map.mp hq
    exact sep_not_mem_segStr s
  unfold parsePath
  rw [hshape, splitOnCode_flatten 47 (p.map segStr) [109] (by simp) hmem]
  simp only [List.head?_cons, List.tail_cons]
  rw [if_pos trivial]
  exact parseSegments_segStr p hi 1

theorem parseIndex_ok_lt (digits : List Nat) (hardened : Bool) (s : PathSegment)
    (h : parseIndex digits hardened = .ok s) : s.index < 2 ^ 31 := by
  unfold parseIndex at h
  split_ifs at h with h1 h2 h3
  · obtain rfl : (⟨digitsVal digits, hardened⟩ : PathSegment) = s := by
      simpa using h
    exact h3

theorem parseSegment_ok_lt (part : List Nat) (s : PathSegment)
    (h : parseSegment part = .ok s) : s.index < 2 ^ 31 := by
  unfold parseSegment at h
  split_ifs at h with h1 h2
  · exact parseIndex_ok_lt _ _ _ h
  · exact parseIndex_ok_lt _ _ _ h

theorem parseSegments_ok_lt (parts : List (List Nat)) :
    ∀ (i : Nat) (p : List PathSegment), parseSegments parts i = .ok p →
      ∀ s ∈ p, s.index < 2 ^ 31 := by
  induction parts with
  | nil =>
    intro i p h s hs
    simp only [parseSegments] at h
    obtain rfl : ([] : List PathSegment) = p := by simpa using h
    simp at hs
  | cons part ps ih =>
    intro i p h s hs
    simp only [parseSegments] at h
    cases hseg : parseSegment part with
    | error r => rw [hseg] at h; simp at h
    | ok s0 =>
      rw [hseg] at h
      cases hrest : parseSegments ps (i + 1) with
      | error e => rw [hrest] at h; simp at h
      | ok rest =>
        rw [hrest] at h
        obtain rfl : s0 :: rest = p := by simpa using h
        rcases List.mem_cons.mp hs with rfl | hmem
        · exact parseSegment_ok_lt part s hseg
        · exact ih (i + 1) rest hrest s hmem

theorem parsePath_ok_lt (cs : List Nat) (p : List PathSegment)
    (h : parsePath cs = .ok p) : ∀ s ∈ p, s.index < 2 ^ 31 := by
  unfold parsePath at h
  cases hsp : splitOnCode 47 cs with
  | nil => rw [hsp] at h; simp at h
  | cons first rest =>
    rw [hsp] at h
    simp only [List.head?_cons, List.tail_cons] at h
    by_cases hf : first = [109]
    · rw [if_pos (by rw [hf])] at h
      exact parseSegments_ok_lt rest 1 p h
    · rw [if_neg (by simpa using hf)] at h
      simp at h

/-- A canonical derivation-path string: the canonical printed form of a
path whose indices fit in 31 bits (the grammar `m(/<uint31>(')?)*` with
indices written without leading zeros). -/
def CanonicalPathStr (cs : List Nat) : Prop :=
  ∃ p : List PathSegment, (∀ s ∈ p, s.index < 2 ^ 31) ∧ cs = pathToString p

/-- C7: every canonical derivation-path string parses successfully and
printing the result gives the string back (parse/print round trip); a
successful parse only ever returns indices fitting in 31 bits; and parsing
rejects, with a `ParseError`, the empty input (`""`), an empty segment
(`"m/"`), a non-numeric segment (`"m/x"`), a first segment other than `m`
(`"n/0"`), and an index not fitting in 31 bits (`"m/2147483648"`). -/
theorem parsePath_roundtrip :
    (∀ cs, CanonicalPathStr cs →
      ∃ p, parsePath cs = .ok p ∧ pathToString p = cs) ∧
      (∀ cs p, parsePath cs = .ok p → ∀ s ∈ p, s.index < 2 ^ 31) ∧
      parsePath [] = .error ⟨0, .notRoot⟩ ∧
      parsePath [109, 47] = .error ⟨1, .emptySegment⟩ ∧
      parsePath [109, 47, 120] = .error ⟨1, .nonNumeric⟩ ∧
      parsePath [110, 47, 48] = .error ⟨0, .notRoot⟩ ∧
      parsePath (109 :: 47 :: numStr (2 ^ 31)) = .error ⟨1, .indexTooLarge⟩ := by
  refine ⟨?_, parsePath_ok_lt, rfl, rfl, rfl, rfl, ?_⟩
  · intro cs hc
    obtain ⟨p, hi, rfl⟩ := hc
    exact ⟨p, parsePath_pathToString p hi, rfl⟩
  · rfl

/-- Witness for C7: the spec scenario path `m/44/429/0'/0/0` parses back to
itself. -/
theorem parsePath_roundtrip_witness :
    ∃ p, parsePath (pathToString
        [⟨44, false⟩, ⟨429, false⟩, ⟨0, true⟩, ⟨0, false⟩, ⟨0, false⟩]) =
          .ok p ∧
      pathToString p = pathToString
        [⟨44, false⟩, ⟨429, false⟩, ⟨0, true⟩, ⟨0, false⟩, ⟨0, false⟩] :=
  parsePath_roundtrip.1 _
    ⟨[⟨44, false⟩, ⟨429, false⟩, ⟨0, true⟩, ⟨0, false⟩, ⟨0, false⟩],
     by decide, rfl⟩
